import Mathlib

/-!
Verification of the Speedle core (src/app.js).

The JavaScript source is shallowly embedded: JS strings become `List Char`
(or `String` where only equality and length matter), JS numbers used as
32-bit quantities become `Nat` with explicit `% 2 ^ 32` at every point the
source applies a coercing bitwise operation, millisecond timestamps from
performance.now become `Int`, and the mutable Vue component state becomes an
explicit `App` record threaded through the operations. Each definition below
names the source function it translates.
-/

/-- 2 ^ 32, the modulus of every JS 32-bit coercion (x >>> 0, Math.imul, x | y). -/
def u32 : Nat := 4294967296

/-- Math.imul: 32-bit wrapping multiplication. Signed and unsigned results
agree modulo 2 ^ 32, so the Nat model keeps the unsigned bit pattern. -/
def imul (x y : Nat) : Nat := (x * y) % u32

/-- One loop step of hashStringToSeed (app.js lines 21-28):
h ^= str.charCodeAt(i); h = Math.imul(h, 16777619).
charCodeAt is modelled by Char.toNat; they agree on all BMP characters,
and the seed strings fed by the program are ASCII. -/
def hashStep (h : Nat) (c : Char) : Nat := imul (h ^^^ c.toNat) 16777619

/-- hashStringToSeed (app.js lines 21-28): FNV-1a style fold starting from
2166136261. Every intermediate value stays below 2 ^ 32 because imul reduces
modulo 2 ^ 32, so the final >>> 0 of the source is a no-op here. -/
def hashStringToSeed (s : List Char) : Nat := s.foldl hashStep 2166136261

/-- The first value drawn from mulberry32(seed) (app.js lines 11-19), as the
numerator t of the returned t / 2 ^ 32. pickSeededWord only ever draws once.
Each JS bitwise coercion (ToInt32 / ToUint32) is a reduction modulo 2 ^ 32 of
the bit pattern, which is what the explicit % u32 steps perform. -/
def mulberry32Draw (seed : Nat) : Nat :=
  let a := (seed + 0x6D2B79F5) % u32
  let t1 := imul (a ^^^ (a >>> 15)) (1 ||| a)
  let t2 := t1 ^^^ ((t1 + imul (t1 ^^^ (t1 >>> 7)) (61 ||| t1)) % u32)
  (t2 ^^^ (t2 >>> 14)) % u32

/-- pickSeededWord (app.js lines 94-100). The source computes
Math.floor(rng() * pool.length) where rng() = t / 4294967296 exactly (t below
2 ^ 32 divided by a power of two is exact in binary floating point); the
floor of that product is t * pool.length / 2 ^ 32 in exact arithmetic, which
is what the Nat division computes (the double product is itself exact for
every pool the program can build, and its floor is below pool.length for
every t below 2 ^ 32 even where rounding occurs). -/
def pickSeededWord (seedStr : List Char) (pool : List (List Char)) : List Char :=
  if pool.length = 0 then "speed".toList
  else
    let t := mulberry32Draw (hashStringToSeed seedStr)
    let idx := t * pool.length / u32
    pool.getD idx []

/-- The three feedback strings "good" / "present" / "bad" of makeFeedback
(the specification calls them correct / present / absent). -/
inductive Fb where
  | good
  | present
  | bad
deriving DecidableEq, Repr

/-- Pass 1 of makeFeedback (app.js lines 75-82) restricted to what it writes
into res: res is prefilled with "bad" at every guess position and position i
becomes "good" exactly when i is below answer.length and guess[i] equals
answer[i]. Positions of the guess beyond the answer keep "bad". -/
def res1 : List Char → List Char → List Fb
  | [], _ => []
  | _ :: gs, [] => Fb.bad :: res1 gs []
  | gc :: gs, ac :: as' => (if gc = ac then Fb.good else Fb.bad) :: res1 gs as'

/-- The remainder counts built by pass 1 of makeFeedback (app.js lines 75-82):
counts[answer[i]] is incremented at every i below answer.length where guess[i]
differs from answer[i]; a guess position that does not exist (guess shorter
than answer) compares unequal in JS, hence the middle case counts it. -/
def countsInit : List Char → List Char → Char → Nat
  | _, [], _ => 0
  | [], ac :: as', c => (if ac = c then 1 else 0) + countsInit [] as' c
  | gc :: gs, ac :: as', c => (if gc ≠ ac ∧ ac = c then 1 else 0) + countsInit gs as' c

/-- Pass 2 of makeFeedback (app.js lines 83-90): positions already "good" are
kept, otherwise a positive remainder count for the guess letter yields
"present" and decrements that count, and otherwise the entry is left as it
is ("bad" after pass 1). -/
def pass2 : List Char → List Fb → (Char → Nat) → List Fb
  | [], _, _ => []
  | _ :: _, [], _ => []
  | gc :: gs, r :: rs, counts =>
    if r = Fb.good then r :: pass2 gs rs counts
    else if 0 < counts gc then
      Fb.present :: pass2 gs rs (fun c => if c = gc then counts c - 1 else counts c)
    else r :: pass2 gs rs counts

/-- makeFeedback (app.js lines 70-92), composed from the two passes. -/
def makeFeedback (guess answer : List Char) : List Fb :=
  pass2 guess (res1 guess answer) (countsInit guess answer)

/-- Number of positions whose guess letter and feedback entry satisfy p,
walking guess and feedback in lockstep (feedback has guess length). -/
def countMarks (p : Char → Fb → Bool) : List Char → List Fb → Nat
  | [], _ => 0
  | _, [] => 0
  | gc :: gs, r :: rs => (if p gc r then 1 else 0) + countMarks p gs rs

/-- Positions at which the scorer marked letter c correct or present. -/
def marksFor (c : Char) (g : List Char) (out : List Fb) : Nat :=
  countMarks (fun gc r => gc == c && (r == Fb.good || r == Fb.present)) g out

/-- Positions at which the scorer marked letter c correct. -/
def goodFor (c : Char) (g : List Char) (out : List Fb) : Nat :=
  countMarks (fun gc r => gc == c && r == Fb.good) g out

/-- Positions at which the scorer marked letter c present. -/
def presentFor (c : Char) (g : List Char) (out : List Fb) : Nat :=
  countMarks (fun gc r => gc == c && r == Fb.present) g out

/-- The rank table of computeKeyStateFromGuesses (app.js line 131):
bad 0, present 1, good 2. -/
def rank : Fb → Nat
  | Fb.bad => 0
  | Fb.present => 1
  | Fb.good => 2

/-- One inner-loop step of computeKeyStateFromGuesses (app.js lines 133-138).
The key state maps an uppercase letter to the best feedback seen, none
standing for a letter never updated (or updated with an undefined feedback
entry, which JS stores as undefined and treats identically afterwards).
A missing previous entry always accepts the update; a present one is only
replaced by a defined entry of strictly greater rank. -/
def ksUpd (ks : Char → Option Fb) (ch : Char) (next : Option Fb) : Char → Option Fb :=
  let key := ch.toUpper
  let doSet : Bool :=
    match ks key, next with
    | none, _ => true
    | some prev, some nx => decide (rank prev < rank nx)
    | some _, none => false
  if doSet then (fun c => if c = key then next else ks c) else ks

/-- The inner loop of computeKeyStateFromGuesses over one guess entry: index i
runs over the word positions and reads fb[i], which is absent (undefined in
JS) when fb is shorter than the word. -/
def ksWord : (Char → Option Fb) → List Char → List Fb → (Char → Option Fb)
  | ks, [], _ => ks
  | ks, c :: cs, fbs => ksWord (ksUpd ks c fbs.head?) cs fbs.tail

/-- One stored guess: the submitted word and its feedback row
(the objects pushed by submit, app.js line 564). -/
structure GEntry where
  word : List Char
  fb : List Fb
deriving DecidableEq, Repr

/-- computeKeyStateFromGuesses (app.js lines 129-141). -/
def computeKeyStateFromGuesses (guesses : List GEntry) : Char → Option Fb :=
  guesses.foldl (fun ks g => ksWord ks g.word g.fb) (fun _ => none)

/-- Board status. The source stores the strings "running" / "solved" /
"failed"; every write in the program stores one of these three, so the
status field is embedded as this enumeration. -/
inductive Status where
  | running
  | solved
  | failed
deriving DecidableEq, Repr

/-- One board (the objects built by createNewBoard, app.js lines 436-455).
The derived id field (modeKey.seedKey) is left out: it is a function of the
two key fields. -/
structure Board where
  modeKey : String
  modeLabel : String
  seedKey : String
  answer : List Char
  status : Status
  hasStarted : Bool
  startedAtISO : String
  lastActiveISO : String
  startPerfTs : Int
  elapsedMs : Int
  finalMs : Option Int
  currentGuess : List Char
  guesses : List GEntry
  keyState : Char → Option Fb

/-- The snapshot serialized by saveBoardToStorage (app.js lines 323-339):
identity, status, timestamps, elapsed and final times, the in-progress guess
and the guess history; keyState and startPerfTs are deliberately absent. -/
structure Snap where
  modeKey : String
  modeLabel : String
  seedKey : String
  answer : List Char
  status : Status
  startedAtISO : String
  lastActiveISO : String
  elapsedMs : Int
  finalMs : Option Int
  currentGuess : List Char
  hasStarted : Bool
  guesses : List GEntry
deriving DecidableEq, Repr

/-- The toSave object of saveBoardToStorage (app.js lines 323-339). -/
def snapOfBoard (b : Board) : Snap :=
  { modeKey := b.modeKey
    modeLabel := b.modeLabel
    seedKey := b.seedKey
    answer := b.answer
    status := b.status
    startedAtISO := b.startedAtISO
    lastActiveISO := b.lastActiveISO
    elapsedMs := b.elapsedMs
    finalMs := b.finalMs
    currentGuess := b.currentGuess
    hasStarted := b.hasStarted
    guesses := b.guesses }

/-- storageKeyBoard (app.js lines 121-123). -/
def storageKeyBoard (modeKey seedKey : String) : String :=
  "speedle.board." ++ modeKey ++ "." ++ seedKey

/-- One performed localStorage.setItem of saveBoardToStorage, recorded with
the force flag and the performance.now timestamp of the call. The newest
write is at the head, so looking up the first entry for a key is the current
stored value. -/
structure WriteEv where
  key : String
  snap : Snap
  force : Bool
  time : Int
deriving DecidableEq, Repr

/-- The saveIntervalMs data field (app.js line 183): the fixed 700ms
throttle window. -/
def saveIntervalMs : Int := 700

/-- The Vue component state that the embedded operations touch: the current
board, the guessable-word set, the throttle timestamp lastSaveAt, the log of
performed storage writes, whether the animation-frame tick loop is armed
(rafHandle), and the message bar. The message timer of setMessage is reduced
to the autoFade flag it is armed with. -/
structure App where
  board : Board
  guessSet : List (List Char)
  lastSaveAt : Int
  writes : List WriteEv
  ticking : Bool
  message : String
  messageKind : String
  messageAutoFade : Bool

/-- setMessage (app.js lines 293-310) restricted to the fields kept in App. -/
def setMessage (s : App) (text kind : String) (autoFade : Bool) : App :=
  { s with message := text, messageKind := kind, messageAutoFade := autoFade }

/-- saveBoardToStorage (app.js lines 317-341): a non-forced call within
saveIntervalMs of lastSaveAt does nothing; otherwise lastSaveAt is set to now
and the snapshot is written under the board key. -/
def saveBoardToStorage (s : App) (b : Board) (force : Bool) (now : Int) : App :=
  if ¬ force ∧ now - s.lastSaveAt < saveIntervalMs then s
  else
    { s with
      lastSaveAt := now
      writes :=
        { key := storageKeyBoard b.modeKey b.seedKey
          snap := snapOfBoard b
          force := force
          time := now } :: s.writes }

/-- saveBoardNow (app.js lines 343-346): reset the throttle, then save with
force. -/
def saveBoardNow (s : App) (b : Board) (now : Int) : App :=
  saveBoardToStorage { s with lastSaveAt := 0 } b true now

/-- normaliseWord (app.js line 68): trim, then lower-case. JS trim strips a
slightly larger whitespace set and toLowerCase maps beyond ASCII; on the
letter words this program feeds through, Char.isWhitespace and Char.toLower
agree with them. -/
def normaliseWord (w : List Char) : List Char :=
  (((w.dropWhile Char.isWhitespace).reverse.dropWhile Char.isWhitespace).reverse).map Char.toLower

/-- One mode entry of the MODES table (app.js lines 154-159). -/
structure Mode where
  key : String
  label : String
  seedType : String
  rule : Nat → Bool

/-- The MODES table (app.js lines 154-159). -/
def MODES : List Mode :=
  [ { key := "daily", label := "Daily", seedType := "daily"
      rule := fun len => decide (3 ≤ len ∧ len ≤ 9) }
  , { key := "short", label := "Short", seedType := "5min"
      rule := fun len => decide (3 ≤ len ∧ len ≤ 4) }
  , { key := "medium", label := "Medium", seedType := "5min"
      rule := fun len => decide (5 ≤ len ∧ len ≤ 6) }
  , { key := "long", label := "Long", seedType := "5min"
      rule := fun len => decide (7 ≤ len ∧ len ≤ 9) } ]

/-- this.MODES.find(m => m.key === modeKey) || this.MODES[0]
(app.js lines 426, 431, 462, 516). -/
def findMode (modeKey : String) : Mode :=
  (MODES.find? (fun m => m.key == modeKey)).getD
    { key := "daily", label := "Daily", seedType := "daily"
      rule := fun len => decide (3 ≤ len ∧ len ≤ 9) }

/-- The test /^[a-z]+$/ (app.js line 517): nonempty and every character a
lowercase ASCII letter. -/
def isLowerWord (w : List Char) : Bool :=
  decide (w ≠ []) && w.all (fun c => decide ('a' ≤ c ∧ c ≤ 'z'))

/-- isValidGuessForMode (app.js lines 515-521), with the guessable set passed
explicitly (this.guessSet in the source). -/
def isValidGuessForMode (word : List Char) (modeKey : String) (guessSet : List (List Char)) : Bool :=
  let mode := findMode modeKey
  if ¬ isLowerWord word then false
  else if word.length < 3 ∨ 9 < word.length then false
  else if ¬ mode.rule word.length then false
  else guessSet.contains word

/-- pauseBoard (app.js lines 391-405) acting on the current board, with the
monotonic clock reading and the wall-clock ISO string passed explicitly. The
optional reason message defaults to empty in every call the claims concern,
so the trailing setMessage branch is not taken. -/
def pauseBoard (s : App) (now : Int) (nowISO : String) : App :=
  if s.board.status ≠ Status.running then s
  else
    let b := s.board
    let b := if b.hasStarted then { b with elapsedMs := now - b.startPerfTs }
             else { b with elapsedMs := 0 }
    let b := { b with lastActiveISO := nowISO }
    saveBoardNow { s with board := b, ticking := false } b now

/-- resumeBoard (app.js lines 407-422). The source coercion
Number(b.elapsedMs) || 0 is the identity on the Int-valued elapsedMs of this
embedding. The tick loop is armed only when the board has started. -/
def resumeBoard (s : App) (now : Int) (nowISO : String) : App :=
  if s.board.status ≠ Status.running then s
  else
    let b := s.board
    let b := { b with startPerfTs := now - b.elapsedMs, lastActiveISO := nowISO }
    let s := saveBoardToStorage { s with board := b } b true now
    if s.board.hasStarted then { s with ticking := true } else { s with ticking := false }

/-- finaliseSolved (app.js lines 523-531). -/
def finaliseSolved (s : App) (now : Int) (nowISO : String) : App :=
  let b := s.board
  let b := { b with
    status := Status.solved
    finalMs := some (max 0 b.elapsedMs)
    lastActiveISO := nowISO }
  let s := saveBoardNow { s with board := b, ticking := false } b now
  setMessage s "Solved" "success" false

/-- submit (app.js lines 534-604) acting on the current board. The DOM
scrolling and the commented-out progress message are omitted; the message
texts are abbreviated constants since no claim reads their wording. -/
def submit (s : App) (now : Int) (nowISO : String) : App :=
  if s.board.status ≠ Status.running then s
  else
    let b := s.board
    let g := normaliseWord b.currentGuess
    if g.length ≠ b.answer.length then
      setMessage s "Must be N letters" "warn" true
    else if ¬ isValidGuessForMode g b.modeKey s.guessSet then
      setMessage s "Not in list" "warn" true
    else
      let s :=
        if ¬ b.hasStarted then
          let b := { b with hasStarted := true, startPerfTs := now, elapsedMs := 0 }
          saveBoardNow { s with board := b, ticking := true } b now
        else s
      let b := s.board
      let fb := makeFeedback g b.answer
      let b := { b with
        guesses := b.guesses ++ [{ word := g, fb := fb }]
        keyState := computeKeyStateFromGuesses (b.guesses ++ [{ word := g, fb := fb }])
        currentGuess := [] }
      let s := saveBoardNow { s with board := b } b now
      if g = b.answer then finaliseSolved s now nowISO else s

/-- addChar (app.js lines 583-590). The source tests the single character
against /^[a-z]$/i and appends its lower-case form. -/
def addChar (s : App) (ch : Char) : App :=
  if s.board.status ≠ Status.running then s
  else if ¬ (('a' ≤ ch ∧ ch ≤ 'z') ∨ ('A' ≤ ch ∧ ch ≤ 'Z')) then s
  else if s.board.answer.length ≤ s.board.currentGuess.length then s
  else { s with board := { s.board with currentGuess := s.board.currentGuess ++ [ch.toLower] } }

/-- backspace (app.js lines 592-597): currentGuess.slice(0, -1). -/
def backspace (s : App) : App :=
  if s.board.status ≠ Status.running then s
  else { s with board := { s.board with currentGuess := s.board.currentGuess.dropLast } }

/-- clearGuess (app.js lines 599-604). -/
def clearGuess (s : App) : App :=
  if s.board.status ≠ Status.running then s
  else { s with board := { s.board with currentGuess := [] } }

/-- The board-mutating user operations, for stating that finished boards are
frozen under any sequence of them. -/
inductive Op where
  | submit (now : Int) (nowISO : String)
  | addChar (ch : Char)
  | backspace
  | clearGuess
  | pause (now : Int) (nowISO : String)
  | resume (now : Int) (nowISO : String)

/-- Dispatch one operation. -/
def applyOp (s : App) : Op → App
  | Op.submit now iso => submit s now iso
  | Op.addChar ch => addChar s ch
  | Op.backspace => backspace s
  | Op.clearGuess => clearGuess s
  | Op.pause now iso => pauseBoard s now iso
  | Op.resume now iso => resumeBoard s now iso

/-- Apply a sequence of operations in order. -/
def applyOps (s : App) : List Op → App
  | [] => s
  | op :: ops => applyOps (applyOp s op) ops

/-- JSON values, the shapes a stored record parsed by safeParseJSON
(app.js lines 125-127) can take. Objects carry their fields as an
association list, duplicate-free as JSON.parse produces them. -/
inductive JVal where
  | null
  | bool (b : Bool)
  | num (n : Int)
  | str (s : String)
  | arr (xs : List JVal)
  | obj (fields : List (String × JVal))

/-- Property lookup on a parsed JSON object. -/
def jGet (fields : List (String × JVal)) (k : String) : Option JVal :=
  (fields.find? (fun f => f.1 == k)).map (fun f => f.2)

/-- The coercion Number(x) || 0 applied to the stored elapsedMs in the
hasStarted inference (app.js line 361): numbers pass through, booleans
coerce to 0 or 1, everything else (missing, null, arrays, objects,
non-numeric strings) yields 0. Numeric strings, which JS would parse, never
occur in records this program writes and are mapped to 0. -/
def jNumberOr0 : Option JVal → Int
  | some (JVal.num n) => n
  | some (JVal.bool b) => if b then 1 else 0
  | _ => 0

/-- One feedback string of a stored guess entry. -/
def parseFb : String → Option Fb
  | "good" => some Fb.good
  | "present" => some Fb.present
  | "bad" => some Fb.bad
  | _ => none

/-- The fb array of a stored guess entry. -/
def parseFbList (xs : List JVal) : Option (List Fb) :=
  xs.mapM (fun j =>
    match j with
    | JVal.str s => parseFb s
    | _ => none)

/-- One stored guess entry: an object with a string word and an fb array of
feedback strings. The source performs no such validation; on an entry of
another shape its computeKeyStateFromGuesses dereferences undefined and the
load throws a TypeError, which the load model reports as a crash result.
Entries the program itself writes always parse. -/
def parseGEntry : JVal → Option GEntry
  | JVal.obj fields =>
    match jGet fields "word", jGet fields "fb" with
    | some (JVal.str w), some (JVal.arr fbs) =>
      (parseFbList fbs).map (fun fb => { word := w.toList, fb := fb })
    | _, _ => none
  | _ => none

/-- All stored guess entries of a record. -/
def parseGuesses (xs : List JVal) : Option (List GEntry) :=
  xs.mapM parseGEntry

/-- The object loadBoardFromStorage hands back on success: the validated and
defaulted fields together with the recomputed keyState and the (possibly
inferred) hasStarted flag. The remaining stored fields (status, timestamps,
final time) pass through the returned object untouched and unvalidated and
are not inspected by any claim; the raw elapsedMs is kept because the
hasStarted inference reads it. -/
structure Loaded where
  answer : List Char
  guesses : List GEntry
  currentGuess : List Char
  keyState : Char → Option Fb
  hasStarted : Bool
  elapsedMsRaw : Option JVal

/-- Result of a load: no usable record, a thrown TypeError, or a board. -/
inductive LoadResult where
  | absent
  | crash
  | ok (b : Loaded)

/-- Whether a load produced no usable record. -/
def LoadResult.isAbsent : LoadResult → Bool
  | LoadResult.absent => true
  | _ => false

/-- The guesses-field defaulting of loadBoardFromStorage (app.js line 357):
a stored guesses value that is not an array is replaced by []. -/
def loadGuessesJ (fields : List (String × JVal)) : List JVal :=
  match jGet fields "guesses" with
  | some (JVal.arr xs) => xs
  | _ => []

/-- The currentGuess-field defaulting of loadBoardFromStorage (app.js line
358): a stored currentGuess value that is not a string is replaced by the
empty string. -/
def loadCurrentGuess (fields : List (String × JVal)) : List Char :=
  match jGet fields "currentGuess" with
  | some (JVal.str s) => s.toList
  | _ => []

/-- The hasStarted inference of loadBoardFromStorage (app.js line 361): a
stored boolean is kept; otherwise the flag is true exactly when the stored
elapsed time coerces to a positive number or the (defaulted) guesses array
is non-empty. -/
def loadHasStarted (fields : List (String × JVal)) (gsJ : List JVal) : Bool :=
  match jGet fields "hasStarted" with
  | some (JVal.bool b) => b
  | _ => decide (0 < jNumberOr0 (jGet fields "elapsedMs")) || decide (0 < gsJ.length)

/-- loadBoardFromStorage (app.js lines 348-363). The input is the stored
record parsed as JSON; none covers both a missing record and one that
JSON.parse rejects (both return null in the source). A stored value that is
not an object fails the typeof check (or, for an array, has an undefined
answer property) and yields null; a non-string or out-of-bounds answer
yields null; a non-array guesses field and a non-string currentGuess field
are replaced by [] and the empty string rather than rejected; keyState is
recomputed from the guess entries; and a missing (non-boolean) hasStarted is
inferred from the stored elapsed time and the guess count. -/
def loadBoardFromStorage (raw : Option JVal) : LoadResult :=
  match raw with
  | none => LoadResult.absent
  | some (JVal.obj fields) =>
    match jGet fields "answer" with
    | some (JVal.str ans) =>
      if ans.length < 3 ∨ 9 < ans.length then LoadResult.absent
      else
        match parseGuesses (loadGuessesJ fields) with
        | none => LoadResult.crash
        | some gs =>
          LoadResult.ok
            { answer := ans.toList
              guesses := gs
              currentGuess := loadCurrentGuess fields
              keyState := computeKeyStateFromGuesses gs
              hasStarted := loadHasStarted fields (loadGuessesJ fields)
              elapsedMsRaw := jGet fields "elapsedMs" }
    | _ => LoadResult.absent
  | some _ => LoadResult.absent

/-- A save request event: a plain (throttleable) saveBoardToStorage call or
a saveBoardNow call, on some board at some performance.now instant. -/
inductive SaveEv where
  | save (b : Board) (now : Int) (force : Bool)
  | saveNow (b : Board) (now : Int)

/-- The instant of a save event. -/
def SaveEv.time : SaveEv → Int
  | SaveEv.save _ n _ => n
  | SaveEv.saveNow _ n => n

/-- Dispatch one save event. -/
def applySave (s : App) : SaveEv → App
  | SaveEv.save b now force => saveBoardToStorage s b force now
  | SaveEv.saveNow b now => saveBoardNow s b now

/-- Run a sequence of save events. -/
def runSaves (s : App) : List SaveEv → App
  | [] => s
  | e :: es => runSaves (applySave s e) es

/-- The events happen at non-decreasing performance.now instants (the
monotonic clock), the first no earlier than t. -/
def timesMono : Int → List SaveEv → Bool
  | _, [] => true
  | t, e :: es => decide (t ≤ e.time) && timesMono e.time es

/-- Relation between a later write (left, nearer the head of the log) and
any earlier write (right): a non-forced write happens at least one full
throttle window after every earlier write. -/
def spacedRel (w1 w2 : WriteEv) : Prop :=
  w1.force = false → saveIntervalMs ≤ w1.time - w2.time

/-- A started, running sample board used by the concrete witnesses. -/
def runningBoard : Board :=
  { modeKey := "daily", modeLabel := "Daily", seedKey := "2026-10-11"
    answer := "apple".toList, status := Status.running, hasStarted := true
    startedAtISO := "2026-10-11T00:00:00Z", lastActiveISO := "2026-10-11T00:00:00Z"
    startPerfTs := 1000, elapsedMs := 5000, finalMs := none
    currentGuess := "apple".toList, guesses := [], keyState := fun _ => none }

/-- A sample application state around runningBoard. -/
def runningApp : App :=
  { board := runningBoard, guessSet := ["apple".toList, "crane".toList]
    lastSaveAt := 0, writes := [], ticking := true
    message := "", messageKind := "info", messageAutoFade := false }

/-- A finished (solved) variant of the sample application state. -/
def solvedApp : App :=
  { runningApp with
    board :=
      { runningBoard with
        status := Status.solved, finalMs := some 4000, currentGuess := [] } }

/-- A variant whose pending guess is not in the guessable set. -/
def invalidGuessApp : App :=
  { runningApp with board := { runningBoard with currentGuess := "zzzzz".toList } }

/-- Fields of a stored record with a valid answer, one well-formed guess
entry, a stored elapsed time and no hasStarted flag. -/
def sampleFields : List (String × JVal) :=
  [ ("answer", JVal.str "apple")
  , ("guesses", JVal.arr
      [ JVal.obj
          [ ("word", JVal.str "crane")
          , ("fb", JVal.arr
              [ JVal.str "bad", JVal.str "bad", JVal.str "good"
              , JVal.str "bad", JVal.str "present" ]) ] ])
  , ("elapsedMs", JVal.num 5000) ]

/-- The sample stored record as a JSON value. -/
def sampleStoredRecord : JVal := JVal.obj sampleFields

/-- The board loadBoardFromStorage reconstitutes from sampleStoredRecord. -/
def sampleLoaded : Loaded :=
  { answer := "apple".toList
    guesses := [{ word := "crane".toList
                  fb := [Fb.bad, Fb.bad, Fb.good, Fb.bad, Fb.present] }]
    currentGuess := []
    keyState := computeKeyStateFromGuesses
      [{ word := "crane".toList
         fb := [Fb.bad, Fb.bad, Fb.good, Fb.bad, Fb.present] }]
    hasStarted := true
    elapsedMsRaw := some (JVal.num 5000) }

lemma getD_mem_of_lt {α : Type} (l : List α) (i : Nat) (d : α) (h : i < l.length) :
    l.getD i d ∈ l := by
  rw [List.getD_eq_getElem l d h]
  exact List.getElem_mem h

/-- C1: pickSeededWord returns the fixed fallback "speed" on an empty pool;
on a non-empty pool it is deterministic (it is a pure function of its two
arguments) and always returns a member of the pool. -/
theorem pickSeededWord_contract (s : List Char) (p : List (List Char)) :
    (p = [] → pickSeededWord s p = "speed".toList) ∧
    (∀ s2 p2, s = s2 → p = p2 → pickSeededWord s p = pickSeededWord s2 p2) ∧
    (p ≠ [] → pickSeededWord s p ∈ p) := by
  refine ⟨?_, ?_, ?_⟩
  · intro h
    subst h
    rfl
  · intro s2 p2 hs hp
    subst hs
    subst hp
    rfl
  · intro h
    have hn : ¬ p.length = 0 := by simpa using h
    have hpos : 0 < p.length := Nat.pos_of_ne_zero hn
    have hu : 0 < u32 := by norm_num [u32]
    have ht : mulberry32Draw (hashStringToSeed s) < u32 := by
      unfold mulberry32Draw
      exact Nat.mod_lt _ hu
    unfold pickSeededWord
    rw [if_neg hn]
    apply getD_mem_of_lt
    rw [Nat.div_lt_iff_lt_mul hu]
    calc mulberry32Draw (hashStringToSeed s) * p.length
        < u32 * p.length := by exact Nat.mul_lt_mul_of_lt_of_le ht (le_refl _) hpos
      _ = p.length * u32 := Nat.mul_comm _ _

/-- C1 witness: the fallback on the empty pool, and membership at a concrete
seed and pool. -/
theorem pickSeededWord_contract_witness :
    (pickSeededWord "daily:2026-10-11".toList [] = "speed".toList) ∧
    pickSeededWord "daily:2026-10-11".toList ["apple".toList, "speed".toList, "crane".toList] ∈
      ["apple".toList, "speed".toList, "crane".toList] :=
  ⟨(pickSeededWord_contract "daily:2026-10-11".toList []).1 rfl,
   (pickSeededWord_contract "daily:2026-10-11".toList
      ["apple".toList, "speed".toList, "crane".toList]).2.2 (by decide)⟩

/-- C2 counterexample: scoring guess "plpel" against answer "apple" does not
produce the feedback row the claim states ([present, present, absent,
correct, present]). -/
theorem makeFeedback_plpel_apple_claim_false :
    makeFeedback "plpel".toList "apple".toList ≠
      [Fb.present, Fb.present, Fb.bad, Fb.good, Fb.present] := by decide

/-- C2 amended: scoring guess "plpel" against answer "apple" produces the
per-position feedback [present, present, correct, present, absent]: the p at
position 2 matches exactly, the leading p and l are present, the e is
present, and the final l is absent because both l occurrences of the answer
are already consumed. -/
theorem makeFeedback_plpel_apple :
    makeFeedback "plpel".toList "apple".toList =
      [Fb.present, Fb.present, Fb.good, Fb.present, Fb.bad] := by decide

lemma countMarks_cons (p : Char → Fb → Bool) (gc : Char) (gs : List Char)
    (r : Fb) (rs : List Fb) :
    countMarks p (gc :: gs) (r :: rs) = (if p gc r then 1 else 0) + countMarks p gs rs := rfl

lemma marksFor_eq_good_add_present (c : Char) :
    ∀ (g : List Char) (out : List Fb),
      marksFor c g out = goodFor c g out + presentFor c g out := by
  intro g
  induction g with
  | nil =>
    intro out
    simp [marksFor, goodFor, presentFor, countMarks]
  | cons gc gs ih =>
    intro out
    cases out with
    | nil => simp [marksFor, goodFor, presentFor, countMarks]
    | cons r rs =>
      simp only [marksFor, goodFor, presentFor, countMarks_cons] at *
      have := ih rs
      cases r <;> by_cases hgc : gc == c <;> simp [hgc] <;> omega

lemma res1_no_present : ∀ (g a : List Char), ∀ r ∈ res1 g a, r ≠ Fb.present := by
  intro g
  induction g with
  | nil =>
    intro a r hr
    simp [res1] at hr
  | cons gc gs ih =>
    intro a r hr
    cases a with
    | nil =>
      simp only [res1, List.mem_cons] at hr
      rcases hr with h | h
      · subst h; simp
      · exact ih [] r h
    | cons ac as' =>
      simp only [res1, List.mem_cons] at hr
      rcases hr with h | h
      · subst h
        by_cases hac : gc = ac <;> simp [hac]
      · exact ih as' r h

lemma presentFor_pass2_le (c : Char) :
    ∀ (g : List Char) (res : List Fb) (counts : Char → Nat),
      (∀ r ∈ res, r ≠ Fb.present) →
      presentFor c g (pass2 g res counts) ≤ counts c := by
  intro g
  induction g with
  | nil =>
    intro res counts _
    simp [pass2, presentFor, countMarks]
  | cons gc gs ih =>
    intro res counts hres
    cases res with
    | nil => simp [pass2, presentFor, countMarks]
    | cons r rs =>
      have hr : r ≠ Fb.present := hres r (List.mem_cons_self r rs)
      have hrs : ∀ x ∈ rs, x ≠ Fb.present := fun x hx => hres x (List.mem_cons_of_mem r hx)
      by_cases hg : r = Fb.good
      · rw [show pass2 (gc :: gs) (r :: rs) counts = r :: pass2 gs rs counts from by
          simp [pass2, hg]]
        simp only [presentFor, countMarks_cons] at *
        have := ih rs counts hrs
        subst hg
        simp
        omega
      · by_cases hc : 0 < counts gc
        · rw [show pass2 (gc :: gs) (r :: rs) counts =
              Fb.present :: pass2 gs rs (fun x => if x = gc then counts x - 1 else counts x) from by
            simp [pass2, hg, hc]]
          simp only [presentFor, countMarks_cons] at *
          have := ih rs (fun x => if x = gc then counts x - 1 else counts x) hrs
          by_cases hgc : gc = c
          · subst hgc
            simp at this ⊢
            omega
          · have hcc : ¬ (c = gc) := fun hh => hgc hh.symm
            simp [hgc, hcc] at this ⊢
            omega
        · rw [show pass2 (gc :: gs) (r :: rs) counts = r :: pass2 gs rs counts from by
            simp [pass2, hg, hc]]
          simp only [presentFor, countMarks_cons] at *
          have := ih rs counts hrs
          have hhead : ¬ (gc == c && r == Fb.present) = true := by
            cases r <;> simp_all
          simp [hhead]
          omega

lemma goodFor_pass2 (c : Char) :
    ∀ (g : List Char) (res : List Fb) (counts : Char → Nat),
      goodFor c g (pass2 g res counts) = goodFor c g res := by
  intro g
  induction g with
  | nil =>
    intro res counts
    simp [pass2, goodFor, countMarks]
  | cons gc gs ih =>
    intro res counts
    cases res with
    | nil => simp [pass2, goodFor, countMarks]
    | cons r rs =>
      by_cases hg : r = Fb.good
      · rw [show pass2 (gc :: gs) (r :: rs) counts = r :: pass2 gs rs counts from by
          simp [pass2, hg]]
        have hih := ih rs counts
        simp only [goodFor] at hih
        simp only [goodFor, countMarks_cons, hih]
      · by_cases hc : 0 < counts gc
        · rw [show pass2 (gc :: gs) (r :: rs) counts =
              Fb.present :: pass2 gs rs (fun x => if x = gc then counts x - 1 else counts x) from by
            simp [pass2, hg, hc]]
          have hih := ih rs (fun x => if x = gc then counts x - 1 else counts x)
          simp only [goodFor] at hih
          simp only [goodFor, countMarks_cons, hih]
          have h1 : ¬ (gc == c && Fb.present == Fb.good) = true := by simp
          have h2 : ¬ (gc == c && r == Fb.good) = true := by
            cases r <;> simp_all
          simp [h1, h2]
        · rw [show pass2 (gc :: gs) (r :: rs) counts = r :: pass2 gs rs counts from by
            simp [pass2, hg, hc]]
          have hih := ih rs counts
          simp only [goodFor] at hih
          simp only [goodFor, countMarks_cons, hih]

lemma countsInit_nil (c : Char) : ∀ (a : List Char), countsInit [] a c = a.count c := by
  intro a
  induction a with
  | nil => simp [countsInit]
  | cons ac as' ih =>
    simp only [countsInit, List.count_cons, ih]
    by_cases h : ac = c
    · simp [h]
      omega
    · simp [h]

lemma goodFor_res1_nil (c : Char) : ∀ (g : List Char), goodFor c g (res1 g []) = 0 := by
  intro g
  induction g with
  | nil => simp [res1, goodFor, countMarks]
  | cons gc gs ih =>
    simp only [res1, goodFor, countMarks_cons] at *
    simp [ih]

lemma goodFor_res1_add_countsInit (c : Char) :
    ∀ (g a : List Char), goodFor c g (res1 g a) + countsInit g a c = a.count c := by
  intro g
  induction g with
  | nil =>
    intro a
    have h0 : goodFor c [] (res1 [] a) = 0 := by simp [res1, goodFor, countMarks]
    rw [h0, countsInit_nil, Nat.zero_add]
  | cons gc gs ih =>
    intro a
    cases a with
    | nil =>
      have h := goodFor_res1_nil c (gc :: gs)
      simp [h, countsInit]
    | cons ac as' =>
      have hih := ih as'
      simp only [goodFor] at hih
      simp only [res1, countsInit, goodFor, countMarks_cons, List.count_cons]
      by_cases h1 : gc = ac
      · subst h1
        by_cases h2 : gc = c <;> simp [h2] <;> omega
      · by_cases h2 : ac = c
        · have h3 : ¬ gc = c := fun hh => h1 (by rw [hh, h2])
          simp [h1, h2, h3]
          omega
        · simp [h1, h2]
          omega

/-- C3: for every equal-length guess and answer and every letter, the number
of positions the scorer marks correct or present for that letter never
exceeds the total occurrence count of the letter in the answer. -/
theorem scorer_marks_bounded (g a : List Char) (_h : g.length = a.length) (c : Char) :
    marksFor c g (makeFeedback g a) ≤ a.count c := by
  have h1 := marksFor_eq_good_add_present c g (makeFeedback g a)
  have h2 := goodFor_pass2 c g (res1 g a) (countsInit g a)
  have h3 := presentFor_pass2_le c g (res1 g a) (countsInit g a) (res1_no_present g a)
  have h4 := goodFor_res1_add_countsInit c g a
  unfold makeFeedback at h1
  unfold makeFeedback
  omega

/-- C3 witness: a concrete duplicate-heavy pair at the letter p: three p in
the guess, two in the answer, so at most two marks. -/
theorem scorer_marks_bounded_witness :
    "pppll".toList.length = "apple".toList.length ∧
    marksFor 'p' "pppll".toList (makeFeedback "pppll".toList "apple".toList) ≤
      "apple".toList.count 'p' :=
  ⟨by decide, scorer_marks_bounded "pppll".toList "apple".toList (by decide) 'p'⟩

/-- C4: submitting a guess equal to the answer of a running, started board
makes the status solved, leaves elapsedMs unchanged and freezes finalMs to
exactly that elapsed value (never negative), and the head of the write log
becomes a forced (non-throttled) write, performed at this instant, of the
solved board's snapshot. -/
theorem submit_solves (s : App) (now : Int) (iso : String)
    (hrun : s.board.status = Status.running)
    (hst : s.board.hasStarted = true)
    (hg : normaliseWord s.board.currentGuess = s.board.answer)
    (hv : isValidGuessForMode s.board.answer s.board.modeKey s.guessSet = true)
    (he : 0 ≤ s.board.elapsedMs) :
    (submit s now iso).board.status = Status.solved ∧
    (submit s now iso).board.elapsedMs = s.board.elapsedMs ∧
    (submit s now iso).board.finalMs = some s.board.elapsedMs ∧
    (0 : Int) ≤ ((submit s now iso).board.finalMs).getD 0 ∧
    (submit s now iso).writes.head? = some
      { key := storageKeyBoard s.board.modeKey s.board.seedKey
        snap := snapOfBoard (submit s now iso).board
        force := true
        time := now } := by
  have hm : max (0 : Int) s.board.elapsedMs = s.board.elapsedMs := max_eq_right he
  simp [submit, finaliseSolved, saveBoardNow, saveBoardToStorage, setMessage,
    snapOfBoard, storageKeyBoard, hrun, hst, hg, hv, hm, he]

/-- C4 witness: the sample running board with its answer pending as the
current guess, submitted at instant 6000. -/
theorem submit_solves_witness :
    (submit runningApp 6000 "t1").board.status = Status.solved ∧
    (submit runningApp 6000 "t1").board.finalMs = some 5000 ∧
    (submit runningApp 6000 "t1").writes.head? = some
      { key := storageKeyBoard "daily" "2026-10-11"
        snap := snapOfBoard (submit runningApp 6000 "t1").board
        force := true
        time := 6000 } := by
  have h := submit_solves runningApp 6000 "t1" rfl rfl (by decide) (by decide) (by decide)
  exact ⟨h.1, h.2.2.1, h.2.2.2.2⟩

/-- C5: on a running, started board, pausing t milliseconds after the
reference instant freezes elapsedMs at t; resuming at any later instant and
pausing again u milliseconds after that yields elapsedMs = t + u, so elapsed
time accumulates across pause and resume cycles. -/
theorem pause_resume_accumulates (s : App) (t u now2 : Int) (iso1 iso2 iso3 : String)
    (hrun : s.board.status = Status.running)
    (hst : s.board.hasStarted = true)
    (_ht : 0 ≤ t) (_hu : 0 ≤ u) :
    (pauseBoard s (s.board.startPerfTs + t) iso1).board.elapsedMs = t ∧
    (pauseBoard
      (resumeBoard (pauseBoard s (s.board.startPerfTs + t) iso1) now2 iso2)
      (now2 + u) iso3).board.elapsedMs = t + u := by
  constructor
  · simp [pauseBoard, saveBoardNow, saveBoardToStorage, hrun, hst]
  · simp [pauseBoard, resumeBoard, saveBoardNow, saveBoardToStorage, hrun, hst]
    ring

/-- C5 witness: the clock example of the specification, 5000 then 2000
milliseconds of activity accumulating to 7000. -/
theorem pause_resume_accumulates_witness :
    (pauseBoard runningApp (runningApp.board.startPerfTs + 5000) "p1").board.elapsedMs = 5000 ∧
    (pauseBoard
      (resumeBoard (pauseBoard runningApp (runningApp.board.startPerfTs + 5000) "p1") 20000 "r1")
      (20000 + 2000) "p2").board.elapsedMs = 7000 := by
  have h := pause_resume_accumulates runningApp 5000 2000 20000 "p1" "r1" "p2"
    rfl rfl (by decide) (by decide)
  exact ⟨h.1, h.2⟩

lemma applyOp_of_finished (s : App) (op : Op) (h : s.board.status ≠ Status.running) :
    applyOp s op = s := by
  cases op <;>
    simp [applyOp, submit, addChar, backspace, clearGuess, pauseBoard, resumeBoard, h]

lemma applyOps_of_finished (s : App) (ops : List Op) (h : s.board.status ≠ Status.running) :
    applyOps s ops = s := by
  induction ops with
  | nil => rfl
  | cons op ops ih =>
    show applyOps (applyOp s op) ops = s
    rw [applyOp_of_finished s op h]
    exact ih

/-- C6: once a board is solved or failed, no sequence of submit, addChar,
backspace, clearGuess, pause or resume operations changes its status,
elapsedMs or finalMs: the terminal states are frozen forever. -/
theorem terminal_states_frozen (s : App) (ops : List Op)
    (h : s.board.status = Status.solved ∨ s.board.status = Status.failed) :
    (applyOps s ops).board.status = s.board.status ∧
    (applyOps s ops).board.elapsedMs = s.board.elapsedMs ∧
    (applyOps s ops).board.finalMs = s.board.finalMs := by
  have hne : s.board.status ≠ Status.running := by
    rcases h with h | h <;> simp [h]
  rw [applyOps_of_finished s ops hne]
  exact ⟨rfl, rfl, rfl⟩

/-- C6 witness: the solved sample board, hit with one operation of every
kind, keeps its status, elapsed time and final time. -/
theorem terminal_states_frozen_witness :
    (solvedApp.board.status = Status.solved ∨ solvedApp.board.status = Status.failed) ∧
    ((applyOps solvedApp
        [Op.submit 7000 "t2", Op.addChar 'q', Op.backspace, Op.clearGuess,
         Op.pause 8000 "t3", Op.resume 9000 "t4"]).board.status = solvedApp.board.status ∧
      (applyOps solvedApp
        [Op.submit 7000 "t2", Op.addChar 'q', Op.backspace, Op.clearGuess,
         Op.pause 8000 "t3", Op.resume 9000 "t4"]).board.elapsedMs = solvedApp.board.elapsedMs ∧
      (applyOps solvedApp
        [Op.submit 7000 "t2", Op.addChar 'q', Op.backspace, Op.clearGuess,
         Op.pause 8000 "t3", Op.resume 9000 "t4"]).board.finalMs = solvedApp.board.finalMs) :=
  ⟨Or.inl rfl,
   terminal_states_frozen solvedApp
     [Op.submit 7000 "t2", Op.addChar 'q', Op.backspace, Op.clearGuess,
      Op.pause 8000 "t3", Op.resume 9000 "t4"] (Or.inl rfl)⟩

/-- C7: submitting an invalid guess on a running board - wrong length for
the answer, or failing the validity test (non-alphabetic or not in the
guessable set) - leaves the board record, the write log, the throttle
timestamp, the tick state and the word set untouched, and only sets a
transient (auto-fading) warning message. -/
theorem invalid_guess_rejected (s : App) (now : Int) (iso : String)
    (hrun : s.board.status = Status.running)
    (hinv : (normaliseWord s.board.currentGuess).length ≠ s.board.answer.length ∨
      isValidGuessForMode (normaliseWord s.board.currentGuess) s.board.modeKey s.guessSet
        = false) :
    (submit s now iso).board = s.board ∧
    (submit s now iso).writes = s.writes ∧
    (submit s now iso).lastSaveAt = s.lastSaveAt ∧
    (submit s now iso).ticking = s.ticking ∧
    (submit s now iso).guessSet = s.guessSet ∧
    (submit s now iso).messageKind = "warn" ∧
    (submit s now iso).messageAutoFade = true := by
  rcases hinv with h | h
  · simp [submit, setMessage, hrun, h]
  · by_cases hl : (normaliseWord s.board.currentGuess).length = s.board.answer.length
    · simp [submit, setMessage, hrun, hl, h]
    · simp [submit, setMessage, hrun, hl]

/-- C7 witness: submitting the pending guess zzzzz, which has the right
length but is not in the guessable set. -/
theorem invalid_guess_rejected_witness :
    (submit invalidGuessApp 6000 "t1").board = invalidGuessApp.board ∧
    (submit invalidGuessApp 6000 "t1").writes = invalidGuessApp.writes ∧
    (submit invalidGuessApp 6000 "t1").messageKind = "warn" := by
  have h := invalid_guess_rejected invalidGuessApp 6000 "t1" rfl (Or.inr (by decide))
  exact ⟨h.1, h.2.1, h.2.2.2.2.2.1⟩

lemma mapM_option_length {α β : Type} (f : α → Option β) :
    ∀ (xs : List α) (ys : List β), xs.mapM f = some ys → ys.length = xs.length := by
  intro xs
  induction xs with
  | nil =>
    intro ys h
    simp only [List.mapM_nil, pure] at h
    cases h
    rfl
  | cons x xs ih =>
    intro ys h
    rw [List.mapM_cons] at h
    cases hfx : f x with
    | none => rw [hfx] at h; simp at h
    | some b =>
      rw [hfx] at h
      cases hrest : xs.mapM f with
      | none => rw [hrest] at h; simp at h
      | some bs =>
        rw [hrest] at h
        simp only [Option.bind_some, Option.pure_def, Option.bind_eq_bind,
          Option.some_bind, Option.some.injEq] at h
        subst h
        simp [ih bs hrest]

lemma load_ok_inv (fields : List (String × JVal)) (l : Loaded)
    (h : loadBoardFromStorage (some (JVal.obj fields)) = LoadResult.ok l) :
    ∃ ans gs,
      jGet fields "answer" = some (JVal.str ans) ∧
      ¬ (ans.length < 3 ∨ 9 < ans.length) ∧
      parseGuesses (loadGuessesJ fields) = some gs ∧
      l = { answer := ans.toList
            guesses := gs
            currentGuess := loadCurrentGuess fields
            keyState := computeKeyStateFromGuesses gs
            hasStarted := loadHasStarted fields (loadGuessesJ fields)
            elapsedMsRaw := jGet fields "elapsedMs" } := by
  cases hans : jGet fields "answer" with
  | none => simp [loadBoardFromStorage, hans] at h
  | some v =>
    cases v with
    | str a =>
      by_cases hb : a.length < 3 ∨ 9 < a.length
      · simp [loadBoardFromStorage, hans, hb] at h
      · cases hgs : parseGuesses (loadGuessesJ fields) with
        | none => simp [loadBoardFromStorage, hans, hb, hgs] at h
        | some gs =>
          refine ⟨a, gs, rfl, hb, rfl, ?_⟩
          simp [loadBoardFromStorage, hans, hb, hgs] at h
          exact h.symm
    | null => simp [loadBoardFromStorage, hans] at h
    | bool b => simp [loadBoardFromStorage, hans] at h
    | num n => simp [loadBoardFromStorage, hans] at h
    | arr xs => simp [loadBoardFromStorage, hans] at h
    | obj f2 => simp [loadBoardFromStorage, hans] at h

/-- C8 (amended): loading returns none when there is no stored record (or
the stored text is not valid JSON), when the record is not a JSON object,
when its answer field is not a string, or when the answer length lies
outside 3-9 - so the caller treats it as absent and creates a fresh board.
A wrong-typed guesses field does not cause rejection: it is replaced by the
empty array (and a wrong-typed currentGuess by the empty string). On every
successful load the keyState is recomputed from the loaded guesses, and
when the stored hasStarted flag is missing (not a boolean) it is inferred
as true exactly when the stored elapsed time is positive or the guess list
is non-empty. -/
theorem load_validation :
    (loadBoardFromStorage none = LoadResult.absent) ∧
    (loadBoardFromStorage (some JVal.null) = LoadResult.absent) ∧
    (∀ b, loadBoardFromStorage (some (JVal.bool b)) = LoadResult.absent) ∧
    (∀ n, loadBoardFromStorage (some (JVal.num n)) = LoadResult.absent) ∧
    (∀ w, loadBoardFromStorage (some (JVal.str w)) = LoadResult.absent) ∧
    (∀ xs, loadBoardFromStorage (some (JVal.arr xs)) = LoadResult.absent) ∧
    (∀ fields, (∀ a, jGet fields "answer" ≠ some (JVal.str a)) →
      loadBoardFromStorage (some (JVal.obj fields)) = LoadResult.absent) ∧
    (∀ fields a, jGet fields "answer" = some (JVal.str a) →
      (a.length < 3 ∨ 9 < a.length) →
      loadBoardFromStorage (some (JVal.obj fields)) = LoadResult.absent) ∧
    (∀ raw l, loadBoardFromStorage raw = LoadResult.ok l →
      l.keyState = computeKeyStateFromGuesses l.guesses) ∧
    (∀ fields l, loadBoardFromStorage (some (JVal.obj fields)) = LoadResult.ok l →
      (∀ xs, jGet fields "guesses" ≠ some (JVal.arr xs)) → l.guesses = []) ∧
    (∀ fields l, loadBoardFromStorage (some (JVal.obj fields)) = LoadResult.ok l →
      (∀ hb, jGet fields "hasStarted" ≠ some (JVal.bool hb)) →
      (l.hasStarted = true ↔
        (0 < jNumberOr0 (jGet fields "elapsedMs") ∨ l.guesses ≠ []))) := by
  refine ⟨rfl, rfl, fun b => rfl, fun n => rfl, fun w => rfl, fun xs => rfl,
    ?_, ?_, ?_, ?_, ?_⟩
  · intro fields hno
    cases hans : jGet fields "answer" with
    | none => simp [loadBoardFromStorage, hans]
    | some v =>
      cases v with
      | str a => exact absurd hans (hno a)
      | null => simp [loadBoardFromStorage, hans]
      | bool b => simp [loadBoardFromStorage, hans]
      | num n => simp [loadBoardFromStorage, hans]
      | arr xs => simp [loadBoardFromStorage, hans]
      | obj f2 => simp [loadBoardFromStorage, hans]
  · intro fields a hans hb
    simp [loadBoardFromStorage, hans, hb]
  · intro raw l h
    cases raw with
    | none => simp [loadBoardFromStorage] at h
    | some v =>
      cases v with
      | obj fields =>
        obtain ⟨ans, gs, _, _, _, hl⟩ := load_ok_inv fields l h
        subst hl
        rfl
      | null => simp [loadBoardFromStorage] at h
      | bool b => simp [loadBoardFromStorage] at h
      | num n => simp [loadBoardFromStorage] at h
      | str w => simp [loadBoardFromStorage] at h
      | arr xs => simp [loadBoardFromStorage] at h
  · intro fields l h hno
    obtain ⟨ans, gs, hans, hbnd, hgs, hl⟩ := load_ok_inv fields l h
    subst hl
    have hgj : loadGuessesJ fields = [] := by
      unfold loadGuessesJ
      cases hg : jGet fields "guesses" with
      | none => rfl
      | some v =>
        cases v with
        | arr xs => exact absurd hg (hno xs)
        | null => rfl
        | bool b => rfl
        | num n => rfl
        | str w => rfl
        | obj f2 => rfl
    rw [hgj] at hgs
    have h0 : parseGuesses ([] : List JVal) = some [] := rfl
    rw [h0] at hgs
    show gs = []
    exact (Option.some.inj hgs).symm
  · intro fields l h hnb
    obtain ⟨ans, gs, hans, hbnd, hgs, hl⟩ := load_ok_inv fields l h
    subst hl
    have hlen : gs.length = (loadGuessesJ fields).length :=
      mapM_option_length parseGEntry (loadGuessesJ fields) gs hgs
    show loadHasStarted fields (loadGuessesJ fields) = true ↔ _
    unfold loadHasStarted
    cases hhs : jGet fields "hasStarted" with
    | none =>
      rw [← hlen]
      simp [List.length_pos]
    | some v =>
      cases v with
      | bool b => exact absurd hhs (hnb b)
      | null => rw [← hlen]; simp [List.length_pos]
      | num n => rw [← hlen]; simp [List.length_pos]
      | str w => rw [← hlen]; simp [List.length_pos]
      | arr xs => rw [← hlen]; simp [List.length_pos]
      | obj f2 => rw [← hlen]; simp [List.length_pos]

/-- C8 counterexample: a record whose guesses field has the wrong type (the
number 5 instead of an array) is not rejected as the claim states - the
load succeeds (the field is silently replaced by an empty array). -/
theorem load_wrongtyped_guesses_loads :
    (loadBoardFromStorage (some (JVal.obj
      [("answer", JVal.str "apple"), ("guesses", JVal.num 5)]))).isAbsent = false := rfl

/-- C8 witness: the missing record yields absent, and the sample record
loads with its keyState recomputed and its hasStarted flag inferred. -/
theorem load_validation_witness :
    (loadBoardFromStorage none = LoadResult.absent) ∧
    sampleLoaded.keyState = computeKeyStateFromGuesses sampleLoaded.guesses ∧
    (sampleLoaded.hasStarted = true ↔
      (0 < jNumberOr0 (jGet sampleFields "elapsedMs") ∨ sampleLoaded.guesses ≠ [])) :=
  ⟨load_validation.1,
   load_validation.2.2.2.2.2.2.2.2.1 (some sampleStoredRecord) sampleLoaded rfl,
   load_validation.2.2.2.2.2.2.2.2.2.2 sampleFields sampleLoaded rfl
     (fun _ h => Option.noConfusion h)⟩

lemma timesMono_le (t t2 : Int) (evs : List SaveEv)
    (h : timesMono t evs = true) (hle : t2 ≤ t) : timesMono t2 evs = true := by
  cases evs with
  | nil => rfl
  | cons e es =>
    simp only [timesMono, Bool.and_eq_true, decide_eq_true_eq] at h ⊢
    exact ⟨le_trans hle h.1, h.2⟩

lemma runSaves_invariant (evs : List SaveEv) :
    ∀ (s : App), timesMono s.lastSaveAt evs = true →
      (∀ w ∈ s.writes, w.time ≤ s.lastSaveAt) →
      s.writes.Pairwise spacedRel →
      ((∀ w ∈ (runSaves s evs).writes, w.time ≤ (runSaves s evs).lastSaveAt) ∧
        (runSaves s evs).writes.Pairwise spacedRel) := by
  induction evs with
  | nil =>
    intro s _ h1 h2
    exact ⟨h1, h2⟩
  | cons e es ih =>
    intro s hmono hle hpw
    simp only [timesMono, Bool.and_eq_true, decide_eq_true_eq] at hmono
    obtain ⟨hts, hmono2⟩ := hmono
    show (∀ w ∈ (runSaves (applySave s e) es).writes,
        w.time ≤ (runSaves (applySave s e) es).lastSaveAt) ∧
      (runSaves (applySave s e) es).writes.Pairwise spacedRel
    cases e with
    | save b now force =>
      simp only [SaveEv.time] at hts hmono2
      by_cases hthr : ¬ force ∧ now - s.lastSaveAt < saveIntervalMs
      · have hstep : applySave s (SaveEv.save b now force) = s := by
          simp [applySave, saveBoardToStorage, hthr]
        rw [hstep]
        exact ih s (timesMono_le now s.lastSaveAt es hmono2 hts) hle hpw
      · have hstep : applySave s (SaveEv.save b now force) =
            { s with
              lastSaveAt := now
              writes :=
                { key := storageKeyBoard b.modeKey b.seedKey, snap := snapOfBoard b
                  force := force, time := now } :: s.writes } := by
          simp only [applySave, saveBoardToStorage]
          rw [if_neg hthr]
        rw [hstep]
        apply ih
        · exact hmono2
        · intro w hw
          rcases List.mem_cons.mp hw with h | h
          · subst h
            exact le_refl now
          · exact le_trans (hle w h) hts
        · refine List.Pairwise.cons ?_ hpw
          intro w hw hforce
          have hforce2 : force = false := hforce
          have h1 : w.time ≤ s.lastSaveAt := hle w hw
          have hns : ¬ (now - s.lastSaveAt < saveIntervalMs) := by
            intro hlt2
            exact hthr ⟨by simp [hforce2], hlt2⟩
          show saveIntervalMs ≤ now - w.time
          omega
    | saveNow b now =>
      simp only [SaveEv.time] at hts hmono2
      have hstep : applySave s (SaveEv.saveNow b now) =
          { s with
            lastSaveAt := now
            writes :=
              { key := storageKeyBoard b.modeKey b.seedKey, snap := snapOfBoard b
                force := true, time := now } :: s.writes } := by
        simp [applySave, saveBoardNow, saveBoardToStorage]
      rw [hstep]
      apply ih
      · exact hmono2
      · intro w hw
        rcases List.mem_cons.mp hw with h | h
        · subst h
          exact le_refl now
        · exact le_trans (hle w h) hts
      · refine List.Pairwise.cons ?_ hpw
        intro w hw hforce
        simp at hforce

/-- C9: along any run of save events at non-decreasing instants starting
from an empty write log, every write performed without force happens at
least one full 700ms throttle window after every earlier performed write
(so, in particular, at most one non-forced write can fall in any 700ms
window, whichever board or call site requested it), while a save with
force set always performs its write immediately. -/
theorem save_throttle_spec (s0 : App) (evs : List SaveEv)
    (h0 : s0.writes = []) (hmono : timesMono s0.lastSaveAt evs = true) :
    (runSaves s0 evs).writes.Pairwise spacedRel ∧
    (∀ (s : App) (b : Board) (now : Int),
      (saveBoardToStorage s b true now).writes =
        { key := storageKeyBoard b.modeKey b.seedKey, snap := snapOfBoard b
          force := true, time := now } :: s.writes) := by
  constructor
  · exact (runSaves_invariant evs s0 hmono
      (by rw [h0]; intro w hw; simp at hw)
      (by rw [h0]; exact List.Pairwise.nil)).2
  · intro s b now
    simp [saveBoardToStorage]

/-- C9 witness: a forced write at 0, a throttled attempt at 100 and a
performed non-forced write at 800 satisfy the spacing property. -/
theorem save_throttle_spec_witness :
    runningApp.writes = [] ∧
    timesMono runningApp.lastSaveAt
      [SaveEv.saveNow runningBoard 0, SaveEv.save runningBoard 100 false,
       SaveEv.save runningBoard 800 false] = true ∧
    (runSaves runningApp
      [SaveEv.saveNow runningBoard 0, SaveEv.save runningBoard 100 false,
       SaveEv.save runningBoard 800 false]).writes.Pairwise spacedRel :=
  ⟨rfl, rfl,
   (save_throttle_spec runningApp
     [SaveEv.saveNow runningBoard 0, SaveEv.save runningBoard 100 false,
      SaveEv.save runningBoard 800 false] rfl rfl).1⟩

/-- C10: the throttle window is shared globally. Every performed write
(forced or not, of any board) updates the single lastSaveAt timestamp, and
along any run from an empty log, a non-forced save of any board performs no
write whenever any performed write of any board lies within the previous
700ms window. -/
theorem save_window_global (s0 : App) (evs : List SaveEv)
    (h0 : s0.writes = []) (hmono : timesMono s0.lastSaveAt evs = true) :
    (∀ (s : App) (b : Board) (force : Bool) (now : Int),
      (saveBoardToStorage s b force now).writes ≠ s.writes →
      (saveBoardToStorage s b force now).lastSaveAt = now) ∧
    (∀ w ∈ (runSaves s0 evs).writes, ∀ (b : Board) (now : Int),
      now - w.time < saveIntervalMs →
      (saveBoardToStorage (runSaves s0 evs) b false now).writes =
        (runSaves s0 evs).writes) := by
  constructor
  · intro s b force now hne
    by_cases hthr : ¬ force ∧ now - s.lastSaveAt < saveIntervalMs
    · refine absurd ?_ hne
      show (saveBoardToStorage s b force now).writes = s.writes
      unfold saveBoardToStorage
      rw [if_pos hthr]
    · show (saveBoardToStorage s b force now).lastSaveAt = now
      unfold saveBoardToStorage
      rw [if_neg hthr]
  · intro w hw b now hlt
    have hinv := (runSaves_invariant evs s0 hmono
      (by rw [h0]; intro w2 hw2; simp at hw2)
      (by rw [h0]; exact List.Pairwise.nil)).1 w hw
    have hcond : now - (runSaves s0 evs).lastSaveAt < saveIntervalMs := by omega
    simp [saveBoardToStorage, hcond]

/-- C10 witness: after a forced write at instant 0, a non-forced save at 600
performs no write, its window blocked by the forced write. -/
theorem save_window_global_witness :
    runningApp.writes = [] ∧
    (saveBoardToStorage (runSaves runningApp [SaveEv.saveNow runningBoard 0])
        runningBoard false 600).writes =
      (runSaves runningApp [SaveEv.saveNow runningBoard 0]).writes :=
  ⟨rfl,
   (save_window_global runningApp [SaveEv.saveNow runningBoard 0] rfl rfl).2
     { key := storageKeyBoard "daily" "2026-10-11", snap := snapOfBoard runningBoard
       force := true, time := 0 }
     (by decide) runningBoard 600 (by decide)⟩
